import Mathlib

/-!
Verification of the file-access core `cfileio.c` (CFITSIO).

This file gives a shallow embedding, in Lean 4, of the routines of
`src/cfileio.c` that the specification talks about: the URL parser
`ffiurl`, the extension-spec decoder `ffexts`, the binning-spec decoder
`ffbins` (with `ffbinr` and `fits_get_token`), the extension-number
query `ffextn`, the driver registry (`fits_register_driver`,
`urltype2driver`), and the `SharedFile` reference-counting lifecycle
(`ffopen` / `ffreopen` / `ffclos` / `ffinit`).

Strings are modelled as `List Char`; the C status variable as `Int`;
C doubles as `Rat` (the only numeric operation the modelled code does
on them is `strtod` of decimal tokens, assignment and equality tests).
Fallible routines return a `PResult`.  Comments on each definition
point at the corresponding lines of `cfileio.c`.
-/

set_option linter.unusedVariables false

namespace CF

/-- Result of a fallible routine: `ok` carries the outputs, `err` carries
the non-zero status value the C routine returned. -/
inductive PResult (α : Type) where
  | ok (a : α) : PResult α
  | err (e : Int) : PResult α
deriving DecidableEq, Repr

/- Error status codes from the CFITSIO header (fitsio.h, not part of
`cfileio.c`).  Only their distinctness matters to the routines here. -/

/-- `FILE_NOT_OPENED` -/
def FILE_NOT_OPENED : Int := 104

/-- `FILE_NOT_CREATED` -/
def FILE_NOT_CREATED : Int := 105

/-- `FILE_NOT_CLOSED` -/
def FILE_NOT_CLOSED : Int := 110

/-- `MEMORY_ALLOCATION` -/
def MEMORY_ALLOCATION : Int := 113

/-- `BAD_FILEPTR` -/
def BAD_FILEPTR : Int := 114

/-- `NULL_INPUT_PTR` -/
def NULL_INPUT_PTR : Int := 115

/-- `BAD_URL_PREFIX` in the header (shortened name here). -/
def BAD_URL_PFX : Int := 121

/-- `TOO_MANY_DRIVERS` -/
def TOO_MANY_DRIVERS : Int := 122

/-- `NO_MATCHING_DRIVER` -/
def NO_MATCHING_DRIVER : Int := 123

/-- `URL_PARSE_ERROR` -/
def URL_PARSE_ERROR : Int := 125

/-- `VALIDSTRUC`, the magic validity code stored in a live `FITSfile`. -/
def VALIDSTRUC : Int := 555

/-- `ANY_HDU` -/
def ANY_HDU : Int := -1

/-- `IMAGE_HDU` -/
def IMAGE_HDU : Int := 0

/-- `ASCII_TBL` -/
def ASCII_TBL : Int := 1

/-- `BINARY_TBL` -/
def BINARY_TBL : Int := 2

/- Datatype codes used by `ffbins` for the histogram image. -/

/-- `TBYTE` -/
def TBYTE : Int := 11

/-- `TSHORT` -/
def TSHORT : Int := 21

/-- `TINT` -/
def TINT : Int := 31

/-- `TFLOAT` -/
def TFLOAT : Int := 42

/-- `TDOUBLE` -/
def TDOUBLE : Int := 82

/-- Modelled from the spec: unset numeric `BinSpec` fields carry a single
sentinel `UNDEFINED` value.  The header that gives `DOUBLENULLVALUE` its
bit pattern is not part of `src/cfileio.c`; the value below is arbitrary
and only compared for equality, exactly as in the C code. -/
def DOUBLENULLVALUE : Rat := mkRat (-91191291391491) (10 ^ 36)

/-- Modelled from the spec: the source tests `minin[0] == FLOATNULLVALUE`
at line 2363 after initializing `minin` to `DOUBLENULLVALUE` at line 2163;
both constants live in the missing header and the spec gives one sentinel
`UNDEFINED`, so they are modelled as equal. -/
def FLOATNULLVALUE : Rat := DOUBLENULLVALUE

/- ------------------------------------------------------------------ -/
/- Small string helpers mirroring the C library calls used.           -/
/- ------------------------------------------------------------------ -/

/-- Index of the first occurrence of character `c` (C `strchr`). -/
def idxOf (c : Char) : List Char → Option Nat
  | [] => none
  | x :: xs => if x == c then some 0 else (idxOf c xs).map (fun k => k + 1)

/-- Index of the first occurrence of the substring `pat` (C `strstr`). -/
def findSub (pat : List Char) : List Char → Option Nat
  | [] => if pat = [] then some 0 else none
  | c :: cs =>
    if pat.isPrefixOf (c :: cs) then some 0
    else (findSub pat cs).map (fun k => k + 1)

/-- Index of the last occurrence of character `c` (the backwards scans at
lines 1528-1532 and 1563-1570 of `cfileio.c`); `none` plays the role of
the C loop ending at index `-1`. -/
def lastIdxC (c : Char) : List Char → Option Nat
  | [] => none
  | x :: xs =>
    match lastIdxC c xs with
    | some k => some (k + 1)
    | none => if x == c then some 0 else none

/-- Strip trailing blanks, as the loops at lines 1499-1519 and 1612-1620
do: they stop at index 1, so a blank at index 0 is never removed. -/
def dropTrail (l : List Char) : List Char :=
  (l.reverse.dropWhile (fun c => c == ' ')).reverse

/-- `trimTrail` is the exact trailing-blank strip of `cfileio.c`
(first character kept even if blank). -/
def trimTrail : List Char → List Char
  | [] => []
  | c :: cs => c :: dropTrail cs

/- ------------------------------------------------------------------ -/
/- The URL parser `ffiurl` (lines 1343-1724).                          -/
/- ------------------------------------------------------------------ -/

/-- The outputs of `ffiurl`; all receivers are taken as present
(non-NULL).  Empty list means the C empty string. -/
structure ParsedURL where
  urltype : List Char
  infile : List Char
  outfile : List Char
  extspec : List Char
  rowfilter : List Char
  binspec : List Char
  colspec : List Char
deriving DecidableEq, Repr

/-- Lines 1401-1454: detect the transport prefix.  `-` means `stdin://`;
an explicit `"://"` is copied verbatim; `ftp:`, `http:`, `mem:`,
`shmem:`, `file:` (in this order) are canonicalized; otherwise the file
driver is assumed and nothing is consumed.  Returns
(urltype, remainder). -/
def schemeSplit (s : List Char) : List Char × List Char :=
  if s.head? = some '-' then ("stdin://".toList, s.drop 1)
  else
    match findSub "://".toList s with
    | some i => (s.take (i + 3), s.drop (i + 3))
    | none =>
      if ("ftp:".toList).isPrefixOf s then ("ftp://".toList, s.drop 4)
      else if ("http:".toList).isPrefixOf s then ("http://".toList, s.drop 5)
      else if ("mem:".toList).isPrefixOf s then ("mem://".toList, s.drop 4)
      else if ("shmem:".toList).isPrefixOf s then ("shmem://".toList, s.drop 6)
      else if ("file:".toList).isPrefixOf s then ("file://".toList, s.drop 5)
      else ("file://".toList, s)

/-- Lines 1456-1497: split the remainder at the first `(` and `[`.
Returns (infile, outfile, bracket-region), the last being the remainder
from the first `[` on (C keeps `ptr3` pointing there), or `none` when no
`[` occurs.  A `(` with no closing `)` is a `URL_PARSE_ERROR`. -/
def infileSplit (r : List Char) : PResult (List Char × List Char × Option (List Char)) :=
  match idxOf '(' r, idxOf '[' r with
  | none, none => .ok (r, [], none)
  | some i, none =>
    match idxOf ')' (r.drop (i + 1)) with
    | none => .err URL_PARSE_ERROR
    | some j => .ok (r.take i, (r.drop (i + 1)).take j, none)
  | some i, some k =>
    if i < k then
      match idxOf ')' (r.drop (i + 1)) with
      | none => .err URL_PARSE_ERROR
      | some j => .ok (r.take i, (r.drop (i + 1)).take j, some (r.drop k))
    else .ok (r.take k, [], some (r.drop k))
  | none, some k => .ok (r.take k, [], some (r.drop k))

/-- Lines 1526-1557: the `filename+n` convention.  `ii` is the index of
the last `+` (or the C value `-1`, here `none`).  The suffix is stripped
when `ii != 0 && (jj - ii) < 5` and every character after the `+` is a
digit.  In the `none` case the C code runs the same test with `ii = -1`:
the whole name is copied to `extspec` and the terminator is written out
of bounds at `infile[-1]`, leaving `infile` unchanged.  Returns
(infile, extspec, plus-flag). -/
def plusSplit (t : List Char) : List Char × List Char × Bool :=
  match lastIdxC '+' t with
  | some i =>
    if i ≠ 0 ∧ t.length - i < 5 ∧ (t.drop (i + 1)).all Char.isDigit then
      (t.take i, t.drop (i + 1), true)
    else (t, [], false)
  | none =>
    if t.length + 1 < 5 ∧ t.all Char.isDigit then (t, t, true)
    else (t, [], false)

/-- Lines 1559-1571: a leading `*` in the output name is replaced by the
basename of the input (text after the last `/`); with no `/` the
outfile is left as is. -/
def wildcardOut (inf outf : List Char) : List Char :=
  if outf.head? = some '*' then
    match lastIdxC '/' inf with
    | some k => inf.drop (k + 1)
    | none => outf
  else outf

/-- Lines 1587-1610: the first bracket encloses the extension spec unless
a plus-extension was already captured, in which case the whole bracket
region becomes the row filter.  A missing `]` is a `URL_PARSE_ERROR`.
`b` starts with `[`.  Returns (extspec, raw rowfilter). -/
def bracketStage (plus : Bool) (ext1 b : List Char) : PResult (List Char × List Char) :=
  if plus then .ok (ext1, b)
  else
    match idxOf ']' (b.drop 1) with
    | none => .err URL_PARSE_ERROR
    | some j => .ok (ext1 ++ (b.drop 1).take j, (b.drop 1).drop (j + 1))

/-- Lines 1640-1681: extract a `[bin...]` filter.  The `[bin` may carry a
datatype letter `b i j r d` and must then be followed by a blank or `]`;
otherwise no binning spec is recognized (and no later occurrence is
tried).  One trailing blank of the captured text is removed.  The
bracketed piece is deleted from the row filter. -/
def binExtract (rf : List Char) : PResult (List Char × List Char) :=
  match findSub "[bin".toList rf with
  | none => .ok ([], rf)
  | some i =>
    let q := i + 4
    let q1 := if (rf.get? q).any
        (fun c => c == 'b' || c == 'i' || c == 'j' || c == 'r' || c == 'd')
      then q + 1 else q
    let c2 := rf.get? q1
    if c2 = some ' ' ∨ c2 = some ']' then
      match idxOf ']' (rf.drop (i + 1)) with
      | none => .err URL_PARSE_ERROR
      | some j =>
        let b1 := (rf.drop (i + 1)).take j
        let b2 := if b1.getLast? = some ' ' then b1.dropLast else b1
        .ok (b2, rf.take i ++ rf.drop (i + j + 2))
    else .ok ([], rf)

/-- Lines 1687-1716: extract a `[col...]` filter; same shape as
`binExtract` but with no check on the character after `[col`. -/
def colExtract (rf : List Char) : PResult (List Char × List Char) :=
  match findSub "[col".toList rf with
  | none => .ok ([], rf)
  | some i =>
    match idxOf ']' (rf.drop (i + 1)) with
    | none => .err URL_PARSE_ERROR
    | some j =>
      let b1 := (rf.drop (i + 1)).take j
      let b2 := if b1.getLast? = some ' ' then b1.dropLast else b1
      .ok (b2, rf.take i ++ rf.drop (i + j + 2))

/-- `ffiurl` (lines 1343-1724) on a zero input status.  The empty input
returns immediately with every output cleared (lines 1368-1387).  The
row filter is lower-cased (lines 1632-1634) before the `[bin`/`[col`
searches. -/
def ffiurlRun (s : List Char) : PResult ParsedURL :=
  if s = [] then .ok ⟨[], [], [], [], [], [], []⟩
  else
    let sc := schemeSplit s
    match infileSplit sc.2 with
    | .err e => .err e
    | .ok t =>
      let inf1 := trimTrail t.1
      let outf1 := trimTrail t.2.1
      let ps := plusSplit inf1
      let outf2 := wildcardOut ps.1 outf1
      match t.2.2 with
      | none => .ok ⟨sc.1, ps.1, outf2, ps.2.1, [], [], []⟩
      | some b =>
        match bracketStage ps.2.2 ps.2.1 b with
        | .err e => .err e
        | .ok u =>
          let rf1 := trimTrail u.2
          if rf1 = [] then .ok ⟨sc.1, ps.1, outf2, u.1, [], [], []⟩
          else
            let rf2 := rf1.map Char.toLower
            match binExtract rf2 with
            | .err e => .err e
            | .ok v =>
              match colExtract v.2 with
              | .err e => .err e
              | .ok w2 => .ok ⟨sc.1, ps.1, outf2, u.1, w2.2, v.1, w2.1⟩

/-- `ffiurl` with its sticky-status guard (lines 1365-1366): a positive
input status is returned unchanged before any output is touched
(`none` = outputs untouched). -/
def ffiurlSt (st : Int) (s : List Char) : Int × Option ParsedURL :=
  if st > 0 then (st, none)
  else
    match ffiurlRun s with
    | .ok p => (0, some p)
    | .err e => (e, none)

/- ------------------------------------------------------------------ -/
/- The extension-spec decoder `ffexts` (lines 1911-1997).              -/
/- ------------------------------------------------------------------ -/

/-- The four outputs of `ffexts`. -/
structure ExtsResult where
  extnum : Int
  extname : List Char
  extvers : Int
  hdutype : Int
deriving DecidableEq, Repr

/-- The defaults `ffexts` assigns to its outputs at entry
(lines 1926-1929), before even looking at the status. -/
def extsDefault : ExtsResult := ⟨0, [], 0, ANY_HDU⟩

/-- Decimal digit run to a natural number (the digits parsed by
`sscanf("%d")`). -/
def digitsToNat (l : List Char) : Nat :=
  l.foldl (fun a c => a * 10 + (c.toNat - 48)) 0

/-- `sscanf(s, "%d")` at a position whose first character is not a blank:
an optional sign followed by at least one digit, further characters
ignored; `none` when no integer can be converted. -/
def sscanfD (l : List Char) : Option Int :=
  match l with
  | '-' :: rest =>
    let ds := rest.takeWhile Char.isDigit
    if ds = [] then none else some (-(digitsToNat ds : Int))
  | '+' :: rest =>
    let ds := rest.takeWhile Char.isDigit
    if ds = [] then none else some (digitsToNat ds : Int)
  | _ =>
    let ds := l.takeWhile Char.isDigit
    if ds = [] then none else some (digitsToNat ds : Int)

/-- The `" ,:"` delimiter set of `ffexts`. -/
def extsDelims : List Char := [' ', ',', ':']

/-- The EXTNAME / EXTVERS / XTENSION branch of `ffexts`
(lines 1950-1995). -/
def extsNameBranch (p : List Char) : PResult ExtsResult :=
  let nm := p.takeWhile (fun c => !(extsDelims.contains c))
  let r1 := (p.drop nm.length).dropWhile (fun c => extsDelims.contains c)
  let vtok := r1.takeWhile (fun c => !(extsDelims.contains c))
  if vtok = [] then .ok { extsDefault with extname := nm }
  else
    match sscanfD r1 with
    | none => .err URL_PARSE_ERROR
    | some v =>
      let r2 := (r1.drop vtok.length).dropWhile (fun c => extsDelims.contains c)
      match r2.head? with
      | none => .ok ⟨0, nm, v, ANY_HDU⟩
      | some c =>
        if c == 'b' || c == 'B' then .ok ⟨0, nm, v, BINARY_TBL⟩
        else if c == 't' || c == 'T' || c == 'a' || c == 'A' then .ok ⟨0, nm, v, ASCII_TBL⟩
        else if c == 'i' || c == 'I' then .ok ⟨0, nm, v, IMAGE_HDU⟩
        else .err URL_PARSE_ERROR

/-- `ffexts` (lines 1911-1997) on a zero input status.  Leading blanks
are skipped; a leading digit selects the pure-number branch with the
`[0, 9999]` range check; otherwise the name branch runs. -/
def ffextsRun (s : List Char) : PResult ExtsResult :=
  let p := s.dropWhile (fun c => c == ' ')
  if (p.head?).any Char.isDigit then
    let n : Int := (digitsToNat (p.takeWhile Char.isDigit) : Int)
    if n < 0 ∨ n > 9999 then .err URL_PARSE_ERROR
    else .ok { extsDefault with extnum := n }
  else extsNameBranch p

/-- `ffexts` with its status handling: the outputs are reset to the
defaults at lines 1926-1929 before the sticky check at line 1931, so a
positive status comes back unchanged but the outputs have been
clobbered.  On a parse error the partially-written outputs are not
tracked (`none`). -/
def ffextsSt (st : Int) (s : List Char) : Int × Option ExtsResult :=
  if st > 0 then (st, some extsDefault)
  else
    match ffextsRun s with
    | .ok r => (0, some r)
    | .err e => (e, none)

/- ------------------------------------------------------------------ -/
/- `fits_get_token`, `ffbinr` and `ffbins` (lines 2112-2548).          -/
/- ------------------------------------------------------------------ -/

/-- The token predicate of `fits_get_token` (lines 2439-2446): a token
is "a number" iff every character is a digit, `.` or `-`. -/
def isNumChar (c : Char) : Bool :=
  c.isDigit || c == '.' || c == '-'

/-- `fits_get_token` (lines 2414-2450): skip leading blanks, take the
maximal run free of delimiter characters, advance past it.  The
is-a-number flag is written only when the token is non-empty (`none`
means the caller's variable keeps its previous — possibly
uninitialized — value). -/
def getToken (delims : List Char) (s : List Char) : List Char × List Char × Option Bool :=
  let s0 := s.dropWhile (fun c => c == ' ')
  let tok := s0.takeWhile (fun c => !(delims.contains c))
  if tok = [] then ([], s0, none)
  else (tok, s0.drop tok.length, some (tok.all isNumChar))

/-- `strtod` restricted to what the "is a number" tokens can contain:
optional sign, digits, optional fraction; no conversion yields 0, and
trailing unconvertible characters are ignored (so `"-"` is 0 and
`"4-4"` is 4), exactly as C `strtod`. -/
def strtodQ (s : List Char) : Rat :=
  let sg : Int × List Char :=
    match s with
    | '-' :: rest => (-1, rest)
    | '+' :: rest => (1, rest)
    | _ => (1, s)
  let d1 := sg.2.takeWhile Char.isDigit
  let r2 := sg.2.drop d1.length
  let d2 : List Char :=
    match r2 with
    | '.' :: rest => rest.takeWhile Char.isDigit
    | _ => []
  if d1 = [] ∧ d2 = [] then 0
  else
    let den : Nat := 10 ^ d2.length
    mkRat (sg.1 * ((digitsToNat d1 * den + digitsToNat d2 : Nat) : Int)) den

/-- One axis of the binning outputs of `ffbins`: the column name, the
three keyword names and the three numeric values. -/
structure Axis where
  colname : List Char
  minname : List Char
  maxname : List Char
  binname : List Char
  minv : Rat
  maxv : Rat
  binsize : Rat
deriving DecidableEq, Repr

/-- The per-axis defaults set at lines 2157-2166. -/
def Axis.dflt : Axis :=
  ⟨[], [], [], [], DOUBLENULLVALUE, DOUBLENULLVALUE, DOUBLENULLVALUE⟩

/-- Delimiters `" ,:;"` of the second and later `fits_get_token` calls
in `ffbinr`. -/
def binrDelims : List Char := [' ', ',', ':', ';']

/-- Delimiters `" ,=:;"` of the first `fits_get_token` call in
`ffbinr`. -/
def binrDelimsEq : List Char := [' ', ',', '=', ':', ';']

/-- The tail of `ffbinr` from line 2497: the current token is either the
binsize (no `:` follows) or the min value, then optional `:max` and
`:binsize`.  Non-number tokens go to the keyword-name slots.  `isnum`
is the current value of the C `isanumber` local; empty tokens leave it
stale. -/
def binrTail (isnum : Bool) (tok s : List Char) (a : Axis) : List Char × Axis :=
  if s.head? ≠ some ':' then
    if isnum then (s, { a with binsize := strtodQ tok })
    else (s, { a with binname := tok })
  else
    let a1 :=
      if tok = [] then a
      else if isnum then { a with minv := strtodQ tok }
      else { a with minname := tok }
    let t3 := getToken binrDelims (s.drop 1)
    let isnum3 := (t3.2.2).getD isnum
    let a2 :=
      if t3.1 = [] then a1
      else if isnum3 then { a1 with maxv := strtodQ t3.1 }
      else { a1 with maxname := t3.1 }
    if (t3.2.1).head? ≠ some ':' then (t3.2.1, a2)
    else
      let t4 := getToken binrDelims ((t3.2.1).drop 1)
      let isnum4 := (t4.2.2).getD isnum3
      let a3 :=
        if t4.1 = [] then a2
        else if isnum4 then { a2 with binsize := strtodQ t4.1 }
        else { a2 with binname := t4.1 }
      (t4.2.1, a3)

/-- `ffbinr` (lines 2452-2548) on a zero status; it never sets the
status.  `g` supplies the value of the uninitialized C local
`isanumber` for the paths on which `fits_get_token` never wrote it.
The axis record `a` carries the caller's current output values, only
some of which are overwritten. -/
def ffbinr (g : Bool) (s : List Char) (a : Axis) : List Char × Axis :=
  let t1 := getToken binrDelimsEq s
  let tok1 := t1.1
  let s1 := t1.2.1
  let isnum1 := (t1.2.2).getD g
  if tok1 = [] ∧ (s1.head? = none ∨ s1.head? = some ',' ∨ s1.head? = some ';') then
    (s1, a)
  else if isnum1 = false ∧ s1.head? ≠ some ':' then
    let cn :=
      if tok1.head? = some '#' ∧ (tok1.get? 1).any Char.isDigit then tok1.drop 1
      else tok1
    let a1 := { a with colname := cn }
    if s1.head? ≠ some '=' then (s1, a1)
    else
      let t2 := getToken binrDelims (s1.drop 1)
      binrTail ((t2.2.2).getD isnum1) t2.1 t2.2.1 a1
  else binrTail isnum1 tok1 s1 a

/-- The full outputs of `ffbins`. -/
structure BinsResult where
  imagetype : Int
  haxis : Int
  ax0 : Axis
  ax1 : Axis
  ax2 : Axis
  ax3 : Axis
  weight : Rat
  wtname : List Char
  recip : Int
deriving DecidableEq, Repr

/-- Outcome of `ffbins`: a result, an error status, or the undefined
behaviour at lines 2377-2381 where the local pointer `recip` is set to
0 (NULL) and then written through (`*recip = 1`). -/
inductive BinsOutcome where
  | ok (r : BinsResult) : BinsOutcome
  | err (e : Int) : BinsOutcome
  | nullWrite : BinsOutcome
deriving DecidableEq, Repr

/-- The name-list loop of the `( col, col ... )` form
(lines 2220-2246): each iteration skips one character (the `(` or the
separator), skips blanks, takes a token delimited by `" ,)"`, skips
blanks; a `)` ends the list.  More than 4 names or a missing `)` is a
`URL_PARSE_ERROR`. -/
def parenNames : Nat → List Char → List (List Char) → PResult (List (List Char) × List Char)
  | 0, _, _ => .err URL_PARSE_ERROR
  | fuel + 1, s, acc =>
    let s1 := (s.drop 1).dropWhile (fun c => c == ' ')
    let tok := s1.takeWhile (fun c => !(c == ' ' || c == ',' || c == ')'))
    let s2 := (s1.drop tok.length).dropWhile (fun c => c == ' ')
    let acc2 := acc ++ [tok]
    if s2.head? = some ')' then .ok (acc2, s2)
    else parenNames fuel s2 acc2

/-- The sequential-form loop of `ffbins` (lines 2310-2347): up to four
`col = range` groups separated by commas (blanks allowed, and after
blanks any non-comma simply continues the loop).  Running off the
fourth axis is a `URL_PARSE_ERROR`. -/
def seqAxes (g : Bool) : Nat → List Char → List Axis → PResult (List Axis × List Char)
  | 0, _, _ => .err URL_PARSE_ERROR
  | fuel + 1, s, acc =>
    let r := ffbinr g s Axis.dflt
    let acc2 := acc ++ [r.2]
    match r.1.head? with
    | none => .ok (acc2, r.1)
    | some c =>
      if c == ';' then .ok (acc2, r.1)
      else if c == ' ' then
        let r2 := r.1.dropWhile (fun x => x == ' ')
        match r2.head? with
        | none => .ok (acc2, r2)
        | some c2 =>
          if c2 == ';' then .ok (acc2, r2)
          else if c2 == ',' then seqAxes g fuel (r2.drop 1) acc2
          else seqAxes g fuel r2 acc2
      else if c == ',' then seqAxes g fuel (r.1.drop 1) acc2
      else .err URL_PARSE_ERROR

/-- The weight clause (lines 2369-2411).  A leading `;` introduces it;
after blanks a `/` makes the code null the local `recip` pointer
(line 2377) and store through it (line 2380): modelled as
`BinsOutcome.nullWrite`.  Otherwise `ffbinr` parses the weight into the
binsize slot (the output `weight`) and the column slot (the output
`wtname`); the output `recip` keeps the 0 assigned at line 2153.
Trailing non-blank characters are a `URL_PARSE_ERROR`. -/
def weightPart (g : Bool) (ity haxis : Int) (a0 a1 a2 a3 : Axis) (s : List Char) : BinsOutcome :=
  if s.head? = some ';' then
    let s1 := (s.drop 1).dropWhile (fun c => c == ' ')
    if s1.head? = some '/' then .nullWrite
    else
      let r := ffbinr g s1 { Axis.dflt with binsize := 1 }
      let s3 := r.1.dropWhile (fun c => c == ' ')
      if s3 = [] then .ok ⟨ity, haxis, a0, a1, a2, a3, (r.2).binsize, (r.2).colname, 0⟩
      else .err URL_PARSE_ERROR
  else
    let s3 := s.dropWhile (fun c => c == ' ')
    if s3 = [] then .ok ⟨ity, haxis, a0, a1, a2, a3, 1, [], 0⟩
    else .err URL_PARSE_ERROR

/-- The `( col ... ) [= range]` form (lines 2215-2303).  The single
range is parsed into scratch locals (column name to `tmpname`) and its
numeric and keyword fields broadcast to every named axis; the column
names come from the list.  After the range, `;` leads to the weight
clause, anything else but the end is an error. -/
def parenForm (g : Bool) (ity : Int) (p1 : List Char) : BinsOutcome :=
  match parenNames 4 p1 [] with
  | .err e => .err e
  | .ok nr =>
    let names := nr.1
    let haxis : Int := (names.length : Int)
    let mkAx (i : Nat) (base : Axis) : Axis :=
      if i < names.length then { base with colname := names.getD i [] } else Axis.dflt
    let s3 := ((nr.2).drop 1).dropWhile (fun c => c == ' ')
    match s3.head? with
    | none =>
      .ok ⟨ity, haxis, mkAx 0 Axis.dflt, mkAx 1 Axis.dflt, mkAx 2 Axis.dflt,
        mkAx 3 Axis.dflt, 1, [], 0⟩
    | some c =>
      if !(c == '=') then .err URL_PARSE_ERROR
      else
        let s4 := (s3.drop 1).dropWhile (fun c => c == ' ')
        let r := ffbinr g s4 Axis.dflt
        let s6 := r.1.dropWhile (fun c => c == ' ')
        if s6.head? = some ';' then
          weightPart g ity haxis (mkAx 0 r.2) (mkAx 1 r.2) (mkAx 2 r.2) (mkAx 3 r.2) s6
        else if s6 = [] then
          .ok ⟨ity, haxis, mkAx 0 r.2, mkAx 1 r.2, mkAx 2 r.2, mkAx 3 r.2, 1, [], 0⟩
        else .err URL_PARSE_ERROR

/-- The sequential form plus the single-number special case
(lines 2310-2367): `haxis` is the number of axes parsed; if exactly one
axis was parsed with no column name and min and max still undefined
(compared against `FLOATNULLVALUE`, line 2363), the number is a default
2-D binsize: `haxis` becomes 2 and `binsize[1]` copies
`binsize[0]`. -/
def seqForm (g : Bool) (ity : Int) (p1 : List Char) : BinsOutcome :=
  match seqAxes g 4 p1 [] with
  | .err e => .err e
  | .ok ar =>
    let axs := ar.1
    let a0 := axs.getD 0 Axis.dflt
    let a1 := axs.getD 1 Axis.dflt
    let a2 := axs.getD 2 Axis.dflt
    let a3 := axs.getD 3 Axis.dflt
    if axs.length = 1 ∧ a0.colname = [] ∧ a0.minv = FLOATNULLVALUE ∧ a0.maxv = FLOATNULLVALUE then
      weightPart g ity 2 a0 { a1 with binsize := a0.binsize } a2 a3 ar.2
    else
      weightPart g ity (axs.length : Int) a0 a1 a2 a3 ar.2

/-- `ffbins` (lines 2112-2412) on a zero input status.  The first three
characters (`bin`) are skipped blindly; an optional datatype letter
selects the image type; an empty tail means all defaults
(`haxis = 2`); otherwise at least one blank must follow, then either
the parenthesized form or the sequential form. -/
def ffbins (g : Bool) (s0 : List Char) : BinsOutcome :=
  let s3 := s0.drop 3
  let ip : Int × List Char :=
    match s3.head? with
    | some c =>
      if c == 'i' then (TSHORT, s3.drop 1)
      else if c == 'j' then (TINT, s3.drop 1)
      else if c == 'r' then (TFLOAT, s3.drop 1)
      else if c == 'd' then (TDOUBLE, s3.drop 1)
      else if c == 'b' then (TBYTE, s3.drop 1)
      else (TINT, s3)
    | none => (TINT, s3)
  let ity := ip.1
  let p := ip.2
  match p.head? with
  | none => .ok ⟨ity, 2, Axis.dflt, Axis.dflt, Axis.dflt, Axis.dflt, 1, [], 0⟩
  | some c =>
    if !(c == ' ') then .err URL_PARSE_ERROR
    else
      let p1 := p.dropWhile (fun x => x == ' ')
      match p1.head? with
      | none => .ok ⟨ity, 2, Axis.dflt, Axis.dflt, Axis.dflt, Axis.dflt, 1, [], 0⟩
      | some c1 =>
        if c1 == '(' then parenForm g ity p1
        else seqForm g ity p1

/-- `ffbins` with its sticky-status guard (lines 2145-2146), which runs
before any output is assigned (`none` = outputs untouched). -/
def ffbinsSt (g : Bool) (st : Int) (s : List Char) : Int × Option BinsOutcome :=
  if st > 0 then (st, none)
  else
    ((match ffbins g s with
      | .ok _ => 0
      | .err e => e
      | .nullWrite => 0), some (ffbins g s))

/- ------------------------------------------------------------------ -/
/- `ffextn` (lines 1999-2110).                                         -/
/- ------------------------------------------------------------------ -/

/-- Outcome of `ffextn`: the extension number it stores, an error
status, or — for a named extension on a non-stdin URL — the point where
it must actually open the file (outside this translation unit's pure
fragment); `needsOpen` carries the URL truncated after the first `]`
(lines 2077-2087). -/
inductive ExtnResult where
  | num (n : Int) : ExtnResult
  | err (e : Int) : ExtnResult
  | needsOpen (stripped : List Char) : ExtnResult
deriving DecidableEq, Repr

/-- `ffextn` (lines 1999-2110) on a zero input status: a binspec forces
extension number 1; a numeric extspec `n` yields `n + 1`; a named
extspec on `stdin://` is a `URL_PARSE_ERROR` (line 2072-2074); a named
extspec otherwise requires opening the file; no extspec yields the
sentinel -99. -/
def ffextn (url : List Char) : ExtnResult :=
  match ffiurlRun url with
  | .err e => .err e
  | .ok p =>
    if p.binspec ≠ [] then .num 1
    else if p.extspec ≠ [] then
      match ffextsRun p.extspec with
      | .err e => .err e
      | .ok r =>
        if r.extname ≠ [] then
          if p.urltype = "stdin://".toList then .err URL_PARSE_ERROR
          else
            match idxOf ']' url with
            | none => .err URL_PARSE_ERROR
            | some k => .needsOpen (url.take (k + 1))
        else .num (r.extnum + 1)
    else .num (-99)

/- ------------------------------------------------------------------ -/
/- The driver registry (lines 18-19, 1282-1341, 2550-2571).            -/
/- ------------------------------------------------------------------ -/

/-- `MAX_DRIVERS` (line 19). -/
def MAX_DRIVERS : Nat := 15

/-- `MAX_PREFIX_LEN` (line 18; shortened name here). -/
def MAX_PFX_LEN : Nat := 20

/-- The registry: `driverTable[0 .. no_of_drivers)` in registration
order.  Each entry keeps the stored (possibly truncated) URL type
string and an abstract payload standing for the function-pointer
table. -/
structure Registry where
  entries : List (List Char × Nat)
deriving DecidableEq, Repr

/-- `fits_register_driver` (lines 1282-1341).  The capacity test
`no_of_drivers + 1 == MAX_DRIVERS` (line 1305) runs first, then the
null-prefix test, then the driver `init` hook (`initRes`: `none` = no
hook, `some r` = hook returning `r`; a non-zero `r` aborts).  On
success the prefix is stored truncated to `MAX_PREFIX_LEN - 1`
characters and the count grows by one. -/
def fits_register_driver (reg : Registry) (pfx : Option (List Char)) (payload : Nat)
    (initRes : Option Int) : Registry × Int :=
  if reg.entries.length + 1 = MAX_DRIVERS then (reg, TOO_MANY_DRIVERS)
  else
    match pfx with
    | none => (reg, BAD_URL_PFX)
    | some p =>
      match initRes with
      | some st =>
        if st ≠ 0 then (reg, st)
        else (⟨reg.entries ++ [(p.take (MAX_PFX_LEN - 1), payload)]⟩, 0)
      | none => (⟨reg.entries ++ [(p.take (MAX_PFX_LEN - 1), payload)]⟩, 0)

/-- Index of the last entry whose stored string equals `q` — the
backward search `for (ii = no_of_drivers - 1; ii >= 0; ii--)` of
`urltype2driver` (lines 2561-2568). -/
def lastMatchIdx (q : List Char) : List (List Char × Nat) → Option Nat
  | [] => none
  | e :: es =>
    match lastMatchIdx q es with
    | some k => some (k + 1)
    | none => if e.1 = q then some 0 else none

/-- `urltype2driver` (lines 2550-2571): exact-match search from the most
recently registered entry backward; no match is
`NO_MATCHING_DRIVER`. -/
def urltype2driver (reg : Registry) (q : List Char) : PResult Nat :=
  match lastMatchIdx q reg.entries with
  | some i => .ok i
  | none => .err NO_MATCHING_DRIVER

/-- Registering the same non-null one-character prefix `n` times in a
row starting from the empty registry, with no `init` hooks; returns the
final registry and the status of the last call (0 for `n = 0`). -/
def regIter : Nat → Registry × Int
  | 0 => (⟨[]⟩, 0)
  | n + 1 => fits_register_driver (regIter n).1 (some ['d']) n none

/- ------------------------------------------------------------------ -/
/- The SharedFile lifecycle (`ffopen`/`ffreopen`/`ffclos`/`ffinit`).   -/
/- ------------------------------------------------------------------ -/

/-- The fields of the shared `FITSfile` structure that the lifecycle
claims are about: the usage counter, the validity magic and whether the
filename memory is still allocated. -/
structure SharedFile where
  open_count : Int
  validcode : Int
  filenameAlloc : Bool
deriving DecidableEq, Repr

/-- A world holding the one `SharedFile` under consideration (`none`
when freed / not yet created) and the number of times the driver's
`close` operation has been invoked on its handle. -/
structure World where
  sf : Option SharedFile
  driverCloses : Nat
deriving DecidableEq, Repr

/-- `ffopen` (lines 246-602) restricted to what touches the status and
the `SharedFile`: the sticky guard (line 277), the blank-name rejection
after trimming leading blanks (lines 288-296), and — on the successful
fresh-open path — the creation of the structure with `open_count = 1`
and `validcode = VALIDSTRUC` (lines 482-491).  The parsing, driver
lookup and record loading between those points involve only external
collaborators and are taken to succeed. -/
def ffopenW (st : Int) (name : List Char) (w : World) : World × Int :=
  if st > 0 then (w, st)
  else if name.dropWhile (fun c => c == ' ') = [] then (w, FILE_NOT_OPENED)
  else ({ sf := some ⟨1, VALIDSTRUC, true⟩, driverCloses := w.driverCloses }, 0)

/-- `ffreopen` (lines 604-630) — and equally the reuse path of `ffopen`
(lines 349-370): after the sticky and validity checks the new handle
shares the structure and `open_count` is incremented. -/
def ffreopenW (st : Int) (w : World) : World × Int :=
  if st > 0 then (w, st)
  else
    match w.sf with
    | none => (w, BAD_FILEPTR)
    | some f =>
      if f.validcode ≠ VALIDSTRUC then (w, BAD_FILEPTR)
      else ({ w with sf := some { f with open_count := f.open_count + 1 } }, st)

/-- `ffclos` (lines 2573-2613).  There is no sticky-status guard: after
the validity check the counter is always decremented; when it reaches 0
the driver `close` runs once, the filename is freed, the validity code
poisoned and both structures freed (modelled as `sf := none`).  The
driver close is taken to succeed, so the status comes back unchanged;
an invalid pointer overwrites the status with `BAD_FILEPTR`
(line 2583). -/
def ffclosW (st : Int) (w : World) : World × Int :=
  match w.sf with
  | none => (w, BAD_FILEPTR)
  | some f =>
    if f.validcode ≠ VALIDSTRUC then (w, BAD_FILEPTR)
    else if f.open_count - 1 = 0 then ({ sf := none, driverCloses := w.driverCloses + 1 }, st)
    else ({ w with sf := some { f with open_count := f.open_count - 1 } }, st)

/-- `ffinit` (lines 720-861) restricted likewise: sticky guard
(line 732), blank-name rejection (lines 743-751), and on success a
fresh structure.  Note lines 847-856 never assign `open_count`; the
`calloc` zero-fill leaves it 0. -/
def ffinitW (st : Int) (name : List Char) (w : World) : World × Int :=
  if st > 0 then (w, st)
  else if name.dropWhile (fun c => c == ' ') = [] then (w, FILE_NOT_CREATED)
  else ({ sf := some ⟨0, VALIDSTRUC, true⟩, driverCloses := w.driverCloses }, 0)

/-- The lifecycle operations a trace is built from: a fresh successful
open, an attach (reopen or reuse-open) to the existing structure, and a
close. -/
inductive FOp where
  | fresh : FOp
  | reopen : FOp
  | close : FOp
deriving DecidableEq, Repr

/-- One trace step, threading the status variable exactly as a C caller
chaining the calls would. -/
def stepOp (p : World × Int) (op : FOp) : World × Int :=
  match op with
  | .fresh => ffopenW p.2 ['f'] p.1
  | .reopen => ffreopenW p.2 p.1
  | .close => ffclosW p.2 p.1

/-- Run a trace of lifecycle operations. -/
def runOps (p : World × Int) (ops : List FOp) : World × Int :=
  ops.foldl stepOp p

/-- The initial world: no file open, driver close never invoked,
status 0. -/
def initW : World × Int := (⟨none, 0⟩, 0)

/- ------------------------------------------------------------------ -/
/- Helper lemmas.                                                      -/
/- ------------------------------------------------------------------ -/

theorem idxOf_eq_none {c : Char} {l : List Char} (h : c ∉ l) : idxOf c l = none := by
  induction l with
  | nil => rfl
  | cons x xs ih =>
    have hx : ¬(x == c) = true := by
      simp only [beq_iff_eq]
      intro he
      exact h (he ▸ List.mem_cons_self x xs)
    simp only [idxOf, hx, if_neg, Bool.not_eq_true] at *
    rw [ih (fun hm => h (List.mem_cons_of_mem x hm))]
    simp [hx]

theorem lastIdxC_eq_none {c : Char} {l : List Char} (h : c ∉ l) : lastIdxC c l = none := by
  induction l with
  | nil => rfl
  | cons x xs ih =>
    have hx : ¬(x == c) = true := by
      simp only [beq_iff_eq]
      intro he
      exact h (he ▸ List.mem_cons_self x xs)
    simp only [lastIdxC, ih (fun hm => h (List.mem_cons_of_mem x hm))]
    simp [hx]

theorem lastIdxC_append {c : Char} {base ds : List Char} (h : c ∉ ds) :
    lastIdxC c (base ++ c :: ds) = some base.length := by
  induction base with
  | nil =>
    simp only [List.nil_append, lastIdxC, lastIdxC_eq_none h]
    simp
  | cons x xs ih =>
    simp only [List.cons_append, lastIdxC, List.append_eq, ih, List.length_cons]

theorem takeWhile_eq_self {p : Char → Bool} {l : List Char}
    (h : ∀ c ∈ l, p c = true) : l.takeWhile p = l := by
  induction l with
  | nil => rfl
  | cons x xs ih =>
    have hx := h x (List.mem_cons_self x xs)
    have hxs := ih (fun c hc => h c (List.mem_cons_of_mem x hc))
    simp [List.takeWhile_cons, hx, hxs]

theorem dropWhile_spaces_replicate (n : Nat) :
    (List.replicate n ' ').dropWhile (fun c => c == ' ') = [] := by
  induction n with
  | zero => rfl
  | succ k ih => simp [List.replicate_succ, List.dropWhile_cons, ih]

theorem dropTrail_replicate (n : Nat) : dropTrail (List.replicate n ' ') = [] := by
  unfold dropTrail
  rw [List.reverse_replicate, dropWhile_spaces_replicate]
  rfl

theorem take_all_len {α : Type} (l : List α) (n : Nat) (h : l.length ≤ n) : l.take n = l := by
  induction l generalizing n with
  | nil => simp
  | cons x xs ih =>
    cases n with
    | zero => simp at h
    | succ m =>
      simp only [List.take_succ_cons]
      rw [ih m (by simpa using h)]

theorem schemeSplit_snd_drop (s : List Char) : ∃ n, (schemeSplit s).2 = s.drop n := by
  unfold schemeSplit
  by_cases h1 : s.head? = some '-'
  · simp only [if_pos h1]
    exact ⟨1, rfl⟩
  · simp only [if_neg h1]
    cases h2 : findSub "://".toList s with
    | some i =>
      simp only [h2]
      exact ⟨i + 3, rfl⟩
    | none =>
      simp only [h2]
      repeat' split
      all_goals
        first
        | exact ⟨4, rfl⟩
        | exact ⟨5, rfl⟩
        | exact ⟨6, rfl⟩
        | exact ⟨0, rfl⟩

/- ------------------------------------------------------------------ -/
/- Claim C2 — registry capacity.                                       -/
/- ------------------------------------------------------------------ -/

/-- C2: the claim says the first 15 registrations succeed and the 16th
returns `TOO_MANY_DRIVERS`.  The test `no_of_drivers + 1 == MAX_DRIVERS`
at line 1305 in fact rejects the 15th call: starting from the empty
registry, registrations 1..14 (with a non-null prefix and no `init`
hook) each succeed and append, and the 15th call returns
`TOO_MANY_DRIVERS` leaving the table and the count untouched at 14
entries — one short of the documented `MAX_DRIVERS = 15` capacity. -/
theorem claim_C2_register_cap :
    ((List.range 15).all (fun k =>
      decide ((regIter k).1.entries.length = k ∧ (regIter k).2 = 0)) = true) ∧
    regIter 15 = ((regIter 14).1, TOO_MANY_DRIVERS) ∧
    (regIter 14).1.entries.length = 14 := by
  decide

/- ------------------------------------------------------------------ -/
/- Claim C6 — the weight clause and the `recip` output.                -/
/- ------------------------------------------------------------------ -/

/-- C6: the weight clause.  With a `/` before the weight the code nulls
the local pointer (`recip = 0;`, line 2377) and then stores through it
(`*recip = 1`, line 2380) — undefined behaviour, modelled as
`nullWrite`, for either value of the uninitialized-local parameter —
instead of setting the output flag to 1.  Without `/` the output keeps
the 0 assigned at line 2153, a numeric weight token lands in `weight`,
and a non-numeric one in the weight keyword name. -/
theorem claim_C6_weight_recip :
    ffbins false "bin x;/2".toList = .nullWrite ∧
    ffbins true "bin x;/2".toList = .nullWrite ∧
    ffbins false "bin x;2".toList
      = .ok ⟨TINT, 1, { Axis.dflt with colname := ['x'] }, Axis.dflt, Axis.dflt,
          Axis.dflt, 2, [], 0⟩ ∧
    ffbins false "bin x;w".toList
      = .ok ⟨TINT, 1, { Axis.dflt with colname := ['x'] }, Axis.dflt, Axis.dflt,
          Axis.dflt, 1, ['w'], 0⟩ := by
  decide

/- ------------------------------------------------------------------ -/
/- Claim C9 — sticky status.                                           -/
/- ------------------------------------------------------------------ -/

/-- C9 counterexample: `ffclos` does not short-circuit on a non-zero
input status.  Closing a valid file with status 5 still decrements the
counter to 0, invokes the driver close and frees the structures — a
state change the claim rules out — while returning the status 5. -/
theorem claim_C9_counterexample :
    ffclosW 5 ⟨some ⟨1, VALIDSTRUC, true⟩, 0⟩ = (⟨none, 1⟩, 5) := by
  decide

/-- C9 (amended): `ffopen`, `ffinit`, `ffiurl` and `ffbins` short-circuit
on a positive input status, returning it unchanged with their outputs
and the world untouched; `ffexts` also returns the status unchanged but
only after resetting its outputs to the defaults; `ffclos` never
short-circuits — on a valid pointer it decrements `open_count` and, at
zero, closes and frees, handing the input status back unchanged. -/
theorem claim_C9_sticky_status :
    (∀ (st : Int) (s : List Char), st > 0 → ffiurlSt st s = (st, none)) ∧
    (∀ (g : Bool) (st : Int) (s : List Char), st > 0 → ffbinsSt g st s = (st, none)) ∧
    (∀ (st : Int) (s : List Char), st > 0 → ffextsSt st s = (st, some extsDefault)) ∧
    (∀ (st : Int) (nm : List Char) (w : World), st > 0 → ffopenW st nm w = (w, st)) ∧
    (∀ (st : Int) (nm : List Char) (w : World), st > 0 → ffinitW st nm w = (w, st)) ∧
    (∀ (st : Int) (w : World) (f : SharedFile), w.sf = some f → f.validcode = VALIDSTRUC →
      ffclosW st w
        = (if f.open_count - 1 = 0 then (⟨none, w.driverCloses + 1⟩ : World)
            else { w with sf := some { f with open_count := f.open_count - 1 } }, st)) := by
  refine ⟨?_, ?_, ?_, ?_, ?_, ?_⟩
  · intro st s h
    simp [ffiurlSt, h]
  · intro g st s h
    simp [ffbinsSt, h]
  · intro st s h
    simp [ffextsSt, h]
  · intro st nm w h
    simp [ffopenW, h]
  · intro st nm w h
    simp [ffinitW, h]
  · intro st w f hsf hv
    obtain ⟨sfv, d⟩ := w
    have hsf2 : sfv = some f := hsf
    subst hsf2
    simp only [ffclosW, hv, ne_eq, not_true_eq_false, if_false]
    split <;> rfl

/-- C9 witness: the sticky guards at status 7, and a non-short-circuited
close at status 7 on a file with `open_count = 2`. -/
theorem claim_C9_witness :
    ffiurlSt 7 ['x'] = (7, none) ∧
    ffopenW 7 ['x'] ⟨none, 0⟩ = (⟨none, 0⟩, 7) ∧
    ffclosW 7 ⟨some ⟨2, VALIDSTRUC, true⟩, 0⟩ = (⟨some ⟨1, VALIDSTRUC, true⟩, 0⟩, 7) := by
  refine ⟨claim_C9_sticky_status.1 7 ['x'] (by norm_num),
    claim_C9_sticky_status.2.2.2.1 7 ['x'] ⟨none, 0⟩ (by norm_num), ?_⟩
  have h := claim_C9_sticky_status.2.2.2.2.2 7 ⟨some ⟨2, VALIDSTRUC, true⟩, 0⟩
    ⟨2, VALIDSTRUC, true⟩ rfl rfl
  simpa using h

/- ------------------------------------------------------------------ -/
/- Claim C10 — blank names.                                            -/
/- ------------------------------------------------------------------ -/

/-- C10: `ffiurl` on the empty string succeeds with status 0 and every
output field empty, and it never rejects a blank (all-space) name;
the blank-name errors are raised by `ffopen` (`FILE_NOT_OPENED`) and
`ffinit` (`FILE_NOT_CREATED`) after trimming leading spaces,
whatever the prior world. -/
theorem claim_C10_blank_names :
    ffiurlRun [] = .ok ⟨[], [], [], [], [], [], []⟩ ∧
    (∀ n : Nat, ffiurlRun (List.replicate (n + 1) ' ')
      = .ok ⟨"file://".toList, [' '], [], [], [], [], []⟩) ∧
    (∀ (n : Nat) (w : World), ffopenW 0 (List.replicate n ' ') w = (w, FILE_NOT_OPENED)) ∧
    (∀ (n : Nat) (w : World), ffinitW 0 (List.replicate n ' ') w = (w, FILE_NOT_CREATED)) := by
  refine ⟨by decide, ?_, ?_, ?_⟩
  · intro n
    have hne : List.replicate (n + 1) ' ' ≠ ([] : List Char) := by
      simp [List.replicate_succ]
    have hsch : schemeSplit (List.replicate (n + 1) ' ')
        = ("file://".toList, List.replicate (n + 1) ' ') := by
      unfold schemeSplit
      have hh : (List.replicate (n + 1) ' ').head? = some ' ' := by
        simp [List.replicate_succ]
      have hfs : findSub "://".toList (List.replicate (n + 1) ' ') = none := by
        clear hne hh
        induction n with
        | zero => decide
        | succ k ih =>
          rw [List.replicate_succ]
          show findSub "://".toList (' ' :: List.replicate (k + 1) ' ') = none
          unfold findSub
          rw [ih]
          simp [List.isPrefixOf]
      have hpre : ∀ (c : Char) (cs : List Char), c ≠ ' ' →
          (c :: cs).isPrefixOf (List.replicate (n + 1) ' ') = false := by
        intro c cs hc
        rw [List.replicate_succ]
        simp [List.isPrefixOf]
        intro he
        exact absurd he hc
      rw [if_neg (by simp [hh]), hfs]
      simp only [hpre 'f' "tp:".toList (by decide), hpre 'h' "ttp:".toList (by decide),
        hpre 'm' "em:".toList (by decide), hpre 's' "hmem:".toList (by decide),
        hpre 'f' "ile:".toList (by decide)]
      rfl
    have hin : infileSplit (List.replicate (n + 1) ' ')
        = .ok (List.replicate (n + 1) ' ', [], none) := by
      unfold infileSplit
      rw [idxOf_eq_none (by simp [List.mem_replicate]),
        idxOf_eq_none (by simp [List.mem_replicate])]
    have htr : trimTrail (List.replicate (n + 1) ' ') = [' '] := by
      rw [List.replicate_succ]
      show ' ' :: dropTrail (List.replicate n ' ') = [' ']
      rw [dropTrail_replicate]
    unfold ffiurlRun
    rw [if_neg hne]
    rw [hsch]
    simp only [hin, htr]
    decide
  · intro n w
    unfold ffopenW
    rw [if_neg (by norm_num), if_pos (dropWhile_spaces_replicate n)]
  · intro n w
    unfold ffinitW
    rw [if_neg (by norm_num), if_pos (dropWhile_spaces_replicate n)]

/- ------------------------------------------------------------------ -/
/- Claim C1 — the open_count lifecycle.                                -/
/- ------------------------------------------------------------------ -/

theorem runOps_nil (p : World × Int) : runOps p [] = p := rfl

theorem runOps_cons (p : World × Int) (op : FOp) (ops : List FOp) :
    runOps p (op :: ops) = runOps (stepOp p op) ops := rfl

theorem reopen_chain (k : Nat) (c : Int) (d : Nat) :
    runOps ((⟨some ⟨c, VALIDSTRUC, true⟩, d⟩ : World), 0) (List.replicate k .reopen)
      = ((⟨some ⟨c + k, VALIDSTRUC, true⟩, d⟩ : World), 0) := by
  induction k generalizing c with
  | zero => simp [runOps]
  | succ m ih =>
    rw [List.replicate_succ, runOps_cons]
    have hstep : stepOp ((⟨some ⟨c, VALIDSTRUC, true⟩, d⟩ : World), 0) .reopen
        = ((⟨some ⟨c + 1, VALIDSTRUC, true⟩, d⟩ : World), 0) := by
      simp [stepOp, ffreopenW]
    rw [hstep, ih (c + 1)]
    have : c + 1 + (m : Int) = c + ((m : Int) + 1) := by ring
    rw [this]
    norm_num

theorem close_chain (m : Nat) (c : Int) (d : Nat) (h1 : 0 < c) (h2 : (m : Int) ≤ c) :
    runOps ((⟨some ⟨c, VALIDSTRUC, true⟩, d⟩ : World), 0) (List.replicate m .close)
      = if (m : Int) = c then ((⟨none, d + 1⟩ : World), 0)
        else ((⟨some ⟨c - m, VALIDSTRUC, true⟩, d⟩ : World), 0) := by
  induction m generalizing c with
  | zero =>
    rw [if_neg (by omega)]
    simp [runOps]
  | succ k ih =>
    rw [List.replicate_succ, runOps_cons]
    by_cases hc : c = 1
    · subst hc
      have hk : k = 0 := by omega
      subst hk
      have hstep : stepOp ((⟨some ⟨1, VALIDSTRUC, true⟩, d⟩ : World), 0) .close
          = ((⟨none, d + 1⟩ : World), 0) := by
        simp [stepOp, ffclosW]
      rw [hstep]
      rw [if_pos (by norm_num)]
      rfl
    · have hstep : stepOp ((⟨some ⟨c, VALIDSTRUC, true⟩, d⟩ : World), 0) .close
          = ((⟨some ⟨c - 1, VALIDSTRUC, true⟩, d⟩ : World), 0) := by
        simp only [stepOp, ffclosW]
        rw [if_neg (by simp [VALIDSTRUC]), if_neg (by omega)]
      rw [hstep, ih (c - 1) (by omega) (by omega)]
      by_cases he : ((k : Int) + 1) = c
      · rw [if_pos (by omega), if_pos (by omega)]
      · rw [if_neg (by omega), if_neg (by omega)]
        have : c - 1 - (k : Int) = c - (((k : Nat) + 1 : Nat) : Int) := by push_cast; ring
        rw [this]

/-- C1: starting from nothing, one successful fresh `ffopen` followed by
`N - 1` attachments (`ffreopen`, or the reuse path of `ffopen`) leaves
the one `SharedFile` with `open_count = N`, valid and with its filename
allocated, the driver `close` never invoked, and status 0.  Each of `M`
subsequent `ffclos` calls decrements the counter by one; as long as
`M < N` the structure survives (not freed, not poisoned, driver `close`
count still 0) with `open_count = N - M`; at `M = N` the final close
invokes the driver `close` exactly once and only then frees the
filename and both structures (poisoning the validity code on the
way). -/
theorem claim_C1_open_count (N M : Nat) (hN : 1 ≤ N) (hM : M ≤ N) :
    runOps initW (FOp.fresh :: List.replicate (N - 1) FOp.reopen)
      = ((⟨some ⟨(N : Int), VALIDSTRUC, true⟩, 0⟩ : World), 0)
    ∧ (M < N →
      runOps (runOps initW (FOp.fresh :: List.replicate (N - 1) FOp.reopen))
          (List.replicate M FOp.close)
        = ((⟨some ⟨(N : Int) - (M : Int), VALIDSTRUC, true⟩, 0⟩ : World), 0))
    ∧ (M = N →
      runOps (runOps initW (FOp.fresh :: List.replicate (N - 1) FOp.reopen))
          (List.replicate M FOp.close)
        = ((⟨none, 1⟩ : World), 0)) := by
  have hopen : runOps initW (FOp.fresh :: List.replicate (N - 1) FOp.reopen)
      = ((⟨some ⟨(N : Int), VALIDSTRUC, true⟩, 0⟩ : World), 0) := by
    rw [runOps_cons]
    have hstep : stepOp initW .fresh = ((⟨some ⟨1, VALIDSTRUC, true⟩, 0⟩ : World), 0) := by
      simp [stepOp, initW, ffopenW]
    rw [hstep, reopen_chain]
    have : (1 : Int) + ((N - 1 : Nat) : Int) = (N : Int) := by omega
    rw [this]
  refine ⟨hopen, ?_, ?_⟩
  · intro hlt
    rw [hopen, close_chain M (N : Int) 0 (by omega) (by omega)]
    rw [if_neg (by omega)]
  · intro heq
    subst heq
    rw [hopen, close_chain M (M : Int) 0 (by omega) (by omega)]
    rw [if_pos rfl]

/-- C1 witness: open then reopen (count 2), then two closes; the second
close frees the structure and the driver close has run exactly once. -/
theorem claim_C1_witness :
    runOps (runOps initW (FOp.fresh :: List.replicate 1 FOp.reopen))
        (List.replicate 2 FOp.close)
      = ((⟨none, 1⟩ : World), 0) :=
  (claim_C1_open_count 2 2 (by norm_num) (le_refl 2)).2.2 rfl

/- ------------------------------------------------------------------ -/
/- Claim C3 — the plus-extension shortcut.                             -/
/- ------------------------------------------------------------------ -/

/-- C3 counterexample: the claim says a 4-digit run is stripped, with
`extspec = "1234"` and `infile = "x.fits"`; the test `(jj - ii) < 5` at
line 1534 rejects it, so the name comes back whole and `extspec`
stays empty. -/
theorem claim_C3_counterexample :
    ffiurlRun "x.fits+1234".toList
      = .ok ⟨"file://".toList, "x.fits+1234".toList, [], [], [], [], []⟩ := by
  decide

/-- C3 (amended): when the infile portion ends in `+` followed by 1 to 3
digits (the `+` not first), the suffix is stripped into `extspec`; a
run of 4 or more digits is not stripped.  In particular
`parse_input("x.fits+3")` gives `extspec = "3"`, `infile = "x.fits"`
and an empty rowfilter. -/
theorem claim_C3_plus_shortcut :
    (∀ (base ds : List Char), base ≠ [] → ds ≠ [] → ds.all Char.isDigit = true →
      ((ds.length ≤ 3 → plusSplit (base ++ '+' :: ds) = (base, ds, true)) ∧
       (4 ≤ ds.length → plusSplit (base ++ '+' :: ds) = (base ++ '+' :: ds, [], false)))) ∧
    ffiurlRun "x.fits+3".toList
      = .ok ⟨"file://".toList, "x.fits".toList, [], ['3'], [], [], []⟩ := by
  constructor
  · intro base ds hb hd hdig
    have hplus : '+' ∉ ds := by
      intro hm
      have := List.all_eq_true.mp hdig '+' hm
      exact absurd this (by decide)
    have hlast : lastIdxC '+' (base ++ '+' :: ds) = some base.length :=
      lastIdxC_append hplus
    have hlen : (base ++ '+' :: ds).length = base.length + (ds.length + 1) := by
      simp [List.length_append]
    have happ : base ++ '+' :: ds = (base ++ ['+']) ++ ds := by simp
    have hdrop : (base ++ '+' :: ds).drop (base.length + 1) = ds := by
      rw [happ]
      exact List.drop_left' (by simp)
    have htake : (base ++ '+' :: ds).take base.length = base :=
      List.take_left' rfl
    have hne0 : base.length ≠ 0 := fun h => hb (List.length_eq_zero.mp h)
    constructor
    · intro hle
      simp only [plusSplit, hlast]
      rw [if_pos ⟨hne0, by rw [hlen]; omega, by rw [hdrop]; exact hdig⟩]
      rw [htake, hdrop]
    · intro hge
      simp only [plusSplit, hlast]
      rw [if_neg ?_]
      intro hcond
      have h2 := hcond.2.1
      rw [hlen] at h2
      omega
  · decide

/-- C3 witness: a 2-digit run is stripped, a 4-digit run is not. -/
theorem claim_C3_witness :
    plusSplit ("ab".toList ++ '+' :: "12".toList) = ("ab".toList, "12".toList, true) ∧
    plusSplit ("ab".toList ++ '+' :: "1234".toList)
      = ("ab".toList ++ '+' :: "1234".toList, [], false) := by
  have h1 := claim_C3_plus_shortcut.1 "ab".toList "12".toList (by decide) (by decide) (by decide)
  have h2 := claim_C3_plus_shortcut.1 "ab".toList "1234".toList (by decide) (by decide) (by decide)
  exact ⟨h1.1 (by decide), h2.2 (by decide)⟩

/- ------------------------------------------------------------------ -/
/- Claim C4 — registry lookup.                                         -/
/- ------------------------------------------------------------------ -/

theorem lastMatchIdx_concat (q : List Char) (l : List (List Char × Nat)) (e : List Char × Nat) :
    lastMatchIdx q (l ++ [e]) = if e.1 = q then some l.length else lastMatchIdx q l := by
  induction l with
  | nil =>
    simp only [List.nil_append, lastMatchIdx]
    by_cases he : e.1 = q <;> simp [he]
  | cons x xs ih =>
    simp only [List.cons_append, lastMatchIdx, List.append_eq, ih]
    by_cases he : e.1 = q <;> simp [he]

theorem lastMatchIdx_eq_none (q : List Char) (l : List (List Char × Nat)) :
    lastMatchIdx q l = none ↔ ∀ e ∈ l, e.1 ≠ q := by
  induction l with
  | nil => simp [lastMatchIdx]
  | cons x xs ih =>
    simp only [lastMatchIdx, List.mem_cons]
    cases h : lastMatchIdx q xs with
    | some k =>
      constructor
      · intro hc
        exact absurd hc (by simp)
      · intro hall
        have hn : lastMatchIdx q xs = none := ih.mpr (fun e he => hall e (Or.inr he))
        rw [h] at hn
        exact absurd hn (by simp)
    | none =>
      by_cases he : x.1 = q
      · rw [if_pos he]
        constructor
        · intro hc
          exact absurd hc (by simp)
        · intro hall
          exact absurd he (hall x (Or.inl rfl))
      · rw [if_neg he]
        constructor
        · intro _ e hme
          rcases hme with rfl | hm
          · exact he
          · exact (ih.mp h) e hm
        · intro _
          rfl

theorem lastMatchIdx_spec (q : List Char) (l : List (List Char × Nat)) (i : Nat)
    (h : lastMatchIdx q l = some i) :
    (∃ e, l.get? i = some e ∧ e.1 = q) ∧
    (∀ j e, i < j → l.get? j = some e → e.1 ≠ q) := by
  induction l generalizing i with
  | nil => simp [lastMatchIdx] at h
  | cons x xs ih =>
    simp only [lastMatchIdx] at h
    cases h2 : lastMatchIdx q xs with
    | some k =>
      rw [h2] at h
      have hi : i = k + 1 := by simpa using h.symm
      obtain ⟨⟨e, hget, heq⟩, hafter⟩ := ih k h2
      subst hi
      constructor
      · exact ⟨e, by simpa using hget, heq⟩
      · intro j f hj hget2
        cases j with
        | zero => omega
        | succ j2 =>
          refine hafter j2 f (by omega) ?_
          simpa using hget2
    | none =>
      rw [h2] at h
      by_cases he : x.1 = q
      · rw [if_pos he] at h
        have hi : i = 0 := by simpa using h.symm
        subst hi
        refine ⟨⟨x, rfl, he⟩, ?_⟩
        intro j f hj hget2
        cases j with
        | zero => omega
        | succ j2 =>
          have hmem : f ∈ xs := List.get?_mem (by simpa using hget2)
          exact (lastMatchIdx_eq_none q xs).mp h2 f hmem
      · rw [if_neg he] at h
        simp at h

/-- C4: `urltype2driver` is an exact-match search from the most recently
registered entry backward.  Registering `A` then `B` under the same
prefix (registry not near capacity, prefix within the stored length)
makes lookup return `B`'s index, the later one; a query matching no
stored prefix returns `NO_MATCHING_DRIVER`; and any successful lookup
returns an index holding the query with no later entry matching it. -/
theorem claim_C4_lookup_most_recent :
    (∀ (reg : Registry) (p : List Char) (a b : Nat),
      reg.entries.length ≤ 12 → p.length ≤ 19 →
      (fits_register_driver reg (some p) a none).2 = 0 ∧
      (fits_register_driver (fits_register_driver reg (some p) a none).1 (some p) b none).2 = 0 ∧
      urltype2driver
          (fits_register_driver (fits_register_driver reg (some p) a none).1 (some p) b none).1 p
        = .ok (reg.entries.length + 1) ∧
      ((fits_register_driver (fits_register_driver reg (some p) a none).1
          (some p) b none).1).entries.get? (reg.entries.length + 1) = some (p, b)) ∧
    (∀ (reg : Registry) (q : List Char), (∀ e ∈ reg.entries, e.1 ≠ q) →
      urltype2driver reg q = .err NO_MATCHING_DRIVER) ∧
    (∀ (reg : Registry) (q : List Char) (i : Nat), urltype2driver reg q = .ok i →
      (∃ e, reg.entries.get? i = some e ∧ e.1 = q) ∧
      (∀ j e, i < j → reg.entries.get? j = some e → e.1 ≠ q)) := by
  refine ⟨?_, ?_, ?_⟩
  · intro reg p a b hlen hplen
    have hp19 : p.take (MAX_PFX_LEN - 1) = p := take_all_len p _ (by simp [MAX_PFX_LEN]; omega)
    have hr1 : fits_register_driver reg (some p) a none = (⟨reg.entries ++ [(p, a)]⟩, 0) := by
      have hraw : fits_register_driver reg (some p) a none
          = (⟨reg.entries ++ [(p.take (MAX_PFX_LEN - 1), a)]⟩, 0) := by
        unfold fits_register_driver
        rw [if_neg (by simp [MAX_DRIVERS]; omega)]
      rw [hraw, hp19]
    have hr2 : fits_register_driver (⟨reg.entries ++ [(p, a)]⟩ : Registry) (some p) b none
        = (⟨(reg.entries ++ [(p, a)]) ++ [(p, b)]⟩, 0) := by
      have hraw : fits_register_driver (⟨reg.entries ++ [(p, a)]⟩ : Registry) (some p) b none
          = (⟨(reg.entries ++ [(p, a)]) ++ [(p.take (MAX_PFX_LEN - 1), b)]⟩, 0) := by
        unfold fits_register_driver
        rw [if_neg (by simp [MAX_DRIVERS]; omega)]
      rw [hraw, hp19]
    rw [hr1]
    rw [hr2]
    refine ⟨rfl, rfl, ?_, ?_⟩
    · unfold urltype2driver
      rw [lastMatchIdx_concat, if_pos rfl]
      simp [List.length_append]
    · have hidx : reg.entries.length + 1 = (reg.entries ++ [(p, a)]).length := by
        simp [List.length_append]
      rw [hidx, List.get?_eq_getElem?]
      exact List.getElem?_concat_length (reg.entries ++ [(p, a)]) (p, b)
  · intro reg q hall
    unfold urltype2driver
    rw [(lastMatchIdx_eq_none q reg.entries).mpr hall]
  · intro reg q i h
    unfold urltype2driver at h
    cases hl : lastMatchIdx q reg.entries with
    | none =>
      rw [hl] at h
      exact absurd h (by simp)
    | some k =>
      rw [hl] at h
      have hk : k = i := by simpa using h
      subst hk
      exact lastMatchIdx_spec q reg.entries k hl

/-- C4 witness: in the empty registry, registering `"x://"` with payload
0 then payload 1 makes lookup of `"x://"` return index 1 — the second
registration. -/
theorem claim_C4_witness :
    urltype2driver
        (fits_register_driver
          (fits_register_driver ⟨[]⟩ (some "x://".toList) 0 none).1
          (some "x://".toList) 1 none).1 "x://".toList
      = .ok 1 ∧
    (fits_register_driver
        (fits_register_driver ⟨[]⟩ (some "x://".toList) 0 none).1
        (some "x://".toList) 1 none).1.entries.get? 1 = some ("x://".toList, 1) := by
  have h := claim_C4_lookup_most_recent.1 ⟨[]⟩ "x://".toList 0 1 (by decide) (by decide)
  exact ⟨h.2.2.1, h.2.2.2⟩

/- ------------------------------------------------------------------ -/
/- Claim C5 — single-number binning spec.                              -/
/- ------------------------------------------------------------------ -/

theorem isNumChar_ne (c : Char) (h : isNumChar c = true) :
    c ≠ ' ' ∧ c ≠ ',' ∧ c ≠ '=' ∧ c ≠ ':' ∧ c ≠ ';' ∧ c ≠ '(' := by
  simp only [isNumChar, Bool.or_eq_true, beq_iff_eq] at h
  rcases h with (hd | rfl) | rfl
  · refine ⟨?_, ?_, ?_, ?_, ?_, ?_⟩ <;> (intro he; subst he; exact absurd hd (by decide))
  · exact ⟨by decide, by decide, by decide, by decide, by decide, by decide⟩
  · exact ⟨by decide, by decide, by decide, by decide, by decide, by decide⟩

theorem isNumChar_not_delims (c : Char) (h : isNumChar c = true) :
    binrDelimsEq.contains c = false ∧ binrDelims.contains c = false := by
  obtain ⟨h1, h2, h3, h4, h5, _⟩ := isNumChar_ne c h
  constructor <;>
    simp [binrDelimsEq, binrDelims, List.contains_cons, beq_iff_eq, h1, h2, h3, h4, h5]

theorem getToken_num (delims ds : List Char) (hne : ds ≠ [])
    (hnum : ds.all isNumChar = true)
    (hnd : ∀ c ∈ ds, delims.contains c = false) :
    getToken delims ds = (ds, [], some true) := by
  have hds0 : ds.dropWhile (fun c => c == ' ') = ds := by
    cases ds with
    | nil => rfl
    | cons c cs =>
      have hc := List.all_eq_true.mp hnum c (List.mem_cons_self c cs)
      simp [List.dropWhile_cons, beq_eq_false_iff_ne.mpr (isNumChar_ne c hc).1]
  have htok : ds.takeWhile (fun c => !(delims.contains c)) = ds :=
    takeWhile_eq_self (fun c hc => by simp only [hnd c hc, Bool.not_false])
  simp only [getToken, hds0, htok, hnum, List.drop_length]
  rw [if_neg hne]

theorem ffbinr_num (g : Bool) (ds : List Char) (a : Axis) (hne : ds ≠ [])
    (hnum : ds.all isNumChar = true) :
    ffbinr g ds a = ([], { a with binsize := strtodQ ds }) := by
  have hnd1 : ∀ c ∈ ds, binrDelimsEq.contains c = false := fun c hc =>
    (isNumChar_not_delims c (List.all_eq_true.mp hnum c hc)).1
  have ht := getToken_num binrDelimsEq ds hne hnum hnd1
  simp only [ffbinr, ht, Option.getD_some]
  rw [if_neg (by simp [hne])]
  rw [if_neg (by simp)]
  simp [binrTail]

/-- C5: a binning spec that reduces to one numeric token with no column
name and no min or max (for instance `bin 4`) is a default 2-D binsize:
`haxis` comes back 2 and `binsize[1]` equals `binsize[0]`, which holds
the parsed number; all other fields keep their defaults. -/
theorem claim_C5_single_number (g : Bool) (ds : List Char) (hne : ds ≠ [])
    (hnum : ds.all isNumChar = true) :
    ffbins g ("bin ".toList ++ ds)
      = .ok ⟨TINT, 2, { Axis.dflt with binsize := strtodQ ds },
          { Axis.dflt with binsize := strtodQ ds }, Axis.dflt, Axis.dflt, 1, [], 0⟩ := by
  obtain ⟨c, cs, rfl⟩ : ∃ c cs, ds = c :: cs := by
    cases ds with
    | nil => exact absurd rfl hne
    | cons c cs => exact ⟨c, cs, rfl⟩
  have hc : isNumChar c = true := List.all_eq_true.mp hnum c (List.mem_cons_self c cs)
  have hcf := isNumChar_ne c hc
  have hp1 : (' ' :: c :: cs).dropWhile (fun x => x == ' ') = c :: cs := by
    simp [List.dropWhile_cons, beq_eq_false_iff_ne.mpr hcf.1]
  have hbr := ffbinr_num g (c :: cs) Axis.dflt (by simp) hnum
  have hseq : seqAxes g 4 (c :: cs) []
      = .ok ([{ Axis.dflt with binsize := strtodQ (c :: cs) }], []) := by
    simp [seqAxes, hbr]
  have happ : "bin ".toList ++ (c :: cs) = 'b' :: 'i' :: 'n' :: ' ' :: c :: cs := rfl
  rw [happ]
  simp only [ffbins, List.drop_succ_cons, List.drop_zero, List.head?_cons,
    show (' ' == 'i') = false from rfl, show (' ' == 'j') = false from rfl,
    show (' ' == 'r') = false from rfl, show (' ' == 'd') = false from rfl,
    show (' ' == 'b') = false from rfl, show (' ' == ' ') = true from rfl,
    Bool.not_true, Bool.false_eq_true, if_false, hp1,
    beq_eq_false_iff_ne.mpr hcf.2.2.2.2.2]
  simp only [seqForm, hseq, List.getD, List.length_cons, List.length_nil]
  simp only [weightPart, List.get?_eq_getElem?]
  simp [FLOATNULLVALUE, Axis.dflt]

/-- C5 witness: `bin 4` yields `haxis = 2` with both binsizes 4. -/
theorem claim_C5_witness :
    ffbins false "bin 4".toList
      = .ok ⟨TINT, 2, { Axis.dflt with binsize := (4 : Rat) },
          { Axis.dflt with binsize := (4 : Rat) }, Axis.dflt, Axis.dflt, 1, [], 0⟩ := by
  have h := claim_C5_single_number false ['4'] (by decide) (by decide)
  have e1 : "bin ".toList ++ ['4'] = "bin 4".toList := by decide
  have e2 : strtodQ ['4'] = (4 : Rat) := by decide
  rw [e1, e2] at h
  exact h

/- ------------------------------------------------------------------ -/
/- Claim C7 — ffextn.                                                  -/
/- ------------------------------------------------------------------ -/

/-- C7: `ffextn` returns 1 whenever a binspec is present; a numeric
extension spec of value `n ≤ 9999` returns `n + 1` (so `"data.fits+12"`
gives 13); a named extension on a `stdin://` URL fails with
`URL_PARSE_ERROR`; and with no extension spec at all the sentinel -99
comes back. -/
theorem claim_C7_ffextn :
    ffextn "data.fits+12".toList = .num 13 ∧
    (∀ (s : List Char) (p : ParsedURL), ffiurlRun s = .ok p → p.binspec ≠ [] →
      ffextn s = .num 1) ∧
    (∀ (s : List Char) (p : ParsedURL) (ds : List Char),
      ffiurlRun s = .ok p → p.binspec = [] → p.extspec = ds → ds ≠ [] →
      ds.all Char.isDigit = true → digitsToNat ds ≤ 9999 →
      ffextn s = .num ((digitsToNat ds : Int) + 1)) ∧
    (∀ (s : List Char) (p : ParsedURL) (r : ExtsResult),
      ffiurlRun s = .ok p → p.binspec = [] → p.extspec ≠ [] →
      p.urltype = "stdin://".toList → ffextsRun p.extspec = .ok r → r.extname ≠ [] →
      ffextn s = .err URL_PARSE_ERROR) ∧
    (∀ (s : List Char) (p : ParsedURL), ffiurlRun s = .ok p → p.binspec = [] →
      p.extspec = [] → ffextn s = .num (-99)) := by
  refine ⟨by decide, ?_, ?_, ?_, ?_⟩
  · intro s p h hbin
    simp only [ffextn, h]
    rw [if_pos hbin]
  · intro s p ds h hbin hext hne hdig hle
    have hexts : ffextsRun ds = .ok ⟨(digitsToNat ds : Int), [], 0, ANY_HDU⟩ := by
      obtain ⟨c, cs, rfl⟩ : ∃ c cs, ds = c :: cs := by
        cases ds with
        | nil => exact absurd rfl hne
        | cons c cs => exact ⟨c, cs, rfl⟩
      have hc : c.isDigit = true := List.all_eq_true.mp hdig c (List.mem_cons_self c cs)
      have hcs : (c :: cs).dropWhile (fun x => x == ' ') = c :: cs := by
        have hcne : c ≠ ' ' := by
          intro he
          subst he
          exact absurd hc (by decide)
        simp [List.dropWhile_cons, beq_eq_false_iff_ne.mpr hcne]
      have htw : (c :: cs).takeWhile Char.isDigit = c :: cs :=
        takeWhile_eq_self (fun x hx => List.all_eq_true.mp hdig x hx)
      simp only [ffextsRun, hcs, List.head?_cons, Option.any_some, hc, if_true, htw]
      rw [if_neg (by omega)]
      rfl
    simp only [ffextn, h]
    rw [if_neg (by simp [hbin]), if_pos (by rw [hext]; exact hne), hext, hexts]
    simp
  · intro s p r h hbin hextne hurl hexts hname
    simp only [ffextn, h]
    rw [if_neg (by simp [hbin]), if_pos hextne, hexts]
    simp [hname, hurl]
  · intro s p h hbin hext
    simp only [ffextn, h]
    rw [if_neg (by simp [hbin]), if_neg (by simp [hext])]

/-- C7 witness: the four behaviours at concrete URLs. -/
theorem claim_C7_witness :
    ffextn "x[1][bin]".toList = .num 1 ∧
    ffextn "y.fits+7".toList = .num 8 ∧
    ffextn "stdin://f[EVENTS]".toList = .err URL_PARSE_ERROR ∧
    ffextn "z.fits".toList = .num (-99) := by
  refine ⟨?_, ?_, ?_, ?_⟩
  · exact claim_C7_ffextn.2.1 "x[1][bin]".toList
      ⟨"file://".toList, ['x'], [], ['1'], [], "bin".toList, []⟩ (by decide) (by decide)
  · have h := claim_C7_ffextn.2.2.1 "y.fits+7".toList
      ⟨"file://".toList, "y.fits".toList, [], ['7'], [], [], []⟩ ['7']
      (by decide) (by decide) (by decide) (by decide) (by decide) (by decide)
    have e : ((digitsToNat ['7'] : Int) + 1) = 8 := by decide
    rw [e] at h
    exact h
  · exact claim_C7_ffextn.2.2.2.1 "stdin://f[EVENTS]".toList
      ⟨"stdin://".toList, ['f'], [], "EVENTS".toList, [], [], []⟩
      ⟨0, "EVENTS".toList, 0, ANY_HDU⟩
      (by decide) (by decide) (by decide) (by decide) (by decide) (by decide)
  · exact claim_C7_ffextn.2.2.2.2 "z.fits".toList
      ⟨"file://".toList, "z.fits".toList, [], [], [], [], []⟩ (by decide) (by decide) (by decide)

/- ------------------------------------------------------------------ -/
/- Claim C8 — parsing strings without brackets or parentheses.         -/
/- ------------------------------------------------------------------ -/

/-- C8 counterexample: the claim promises an empty `extspec` for every
input without `[` or `(`; but on the bare name `"1"` the plus-extension
code (with its `ii = -1` degenerate case) copies the whole name into
`extspec`. -/
theorem claim_C8_counterexample :
    ffiurlRun ['1'] = .ok ⟨"file://".toList, ['1'], [], ['1'], [], [], []⟩ := by
  decide

/-- C8 (amended): for a non-empty input with neither `[` nor `(`,
parsing succeeds with `infile` equal to the input minus its transport
prefix and minus trailing blanks, and all of extspec, rowfilter,
binspec and colspec empty — provided the plus-extension shortcut leaves
that infile untouched (it fires on names ending in `+` plus at most 3
digits and on bare digit strings of length at most 3). -/
theorem claim_C8_no_specials (s : List Char) (hs : s ≠ []) (hp : '(' ∉ s) (hb : '[' ∉ s)
    (hplus : plusSplit (trimTrail (schemeSplit s).2)
      = (trimTrail (schemeSplit s).2, [], false)) :
    ffiurlRun s = .ok ⟨(schemeSplit s).1, trimTrail (schemeSplit s).2, [], [], [], [], []⟩ := by
  obtain ⟨n, hn⟩ := schemeSplit_snd_drop s
  have hp2 : '(' ∉ (schemeSplit s).2 := by
    rw [hn]
    intro hm
    exact hp (List.drop_subset n s hm)
  have hb2 : '[' ∉ (schemeSplit s).2 := by
    rw [hn]
    intro hm
    exact hb (List.drop_subset n s hm)
  have hin : infileSplit (schemeSplit s).2 = .ok ((schemeSplit s).2, [], none) := by
    unfold infileSplit
    rw [idxOf_eq_none hp2, idxOf_eq_none hb2]
  simp only [ffiurlRun, hs, hin, hplus]
  rfl

/-- C8 witness: `"abc"` parses to `infile = "abc"` with everything else
empty. -/
theorem claim_C8_witness :
    ffiurlRun "abc".toList = .ok ⟨"file://".toList, "abc".toList, [], [], [], [], []⟩ := by
  have h := claim_C8_no_specials "abc".toList (by decide) (by decide) (by decide) (by decide)
  have e1 : schemeSplit "abc".toList = ("file://".toList, "abc".toList) := by decide
  have e2 : trimTrail "abc".toList = "abc".toList := by decide
  rw [e1] at h
  simp only [e2] at h
  exact h

end CF
